import Mathlib

/-!
Verification development for the `zenith-task` concurrent task scheduler
(crate `zenith-task`: `task.rs`, `executor.rs`, `worker.rs`).

The Rust code is shallowly embedded:
* type-erased boxed values (`Box<dyn Any + Send>`) become `ErasedValue`, a
  payload together with a runtime type tag; `downcast` checks the tag;
* `TaskState` (completion flag + result slot) becomes a two-field structure;
  the condition variable is not represented - `wait` only ever returns once
  the flag is observed true, and the flag is monotone (only ever set), so the
  post-`wait` behaviour of the blocking getters is modelled as behaviour on a
  state whose `completed` field is `true`;
* the `SegQueue` FIFO queues become lists (pop at the head, push at the tail);
* the hash maps become association lists with unique keys;
* `Arc<TaskState>` sharing becomes indices (`ref`) into a heap
  (`List TaskState`);
* the worker loop, whose inner scans need not terminate, is given explicit
  fuel: running out of fuel performs no further action, so every action the
  fuelled function does perform is an action of the Rust loop.
-/

/-- The runtime type witness carried by `Box<dyn Any + Send>`: a payload plus
a type tag.  `downcast` succeeds exactly when the tag matches, mirroring
`Box<dyn Any>::downcast::<T>()`. -/
structure ErasedValue where
  tag : Nat
  val : Nat
deriving DecidableEq

/-- Model of `Box<dyn Any>::downcast::<T>()` for the type with tag `t`. -/
def downcast (t : Nat) (v : ErasedValue) : Option Nat :=
  if v.tag = t then some v.val else none

/-- `TaskId::INVALID` is `u64::MAX` (task.rs line 10). -/
def TaskId.INVALID : Nat := 2 ^ 64 - 1

/-- Model of `TaskState` (task.rs lines 85-89): the mutex-protected result
slot and the atomic completion flag.  The condition variable carries no data
and is omitted. -/
structure TaskState where
  result : Option ErasedValue
  completed : Bool
deriving DecidableEq

/-- The state a freshly registered task starts in (`TaskState::new`,
task.rs lines 92-98). -/
def TaskState.new : TaskState :=
  { result := none, completed := false }

/-- `TaskState::set_result` (task.rs lines 100-103): store the erased result
into the slot, then set the completion flag (`set_completed`).  As a pure
function the two sub-steps are composed; the step system `CStep` below keeps
them separate to expose their ordering. -/
def TaskState.set_result (s : TaskState) (v : ErasedValue) : TaskState :=
  { s with result := some v, completed := true }

/-- `TaskState::wait` (task.rs lines 114-123) first loads the flag and
returns immediately when it is already true; otherwise it sleeps on the
condition variable until the flag is observed true.  Its non-blocking
early-return condition is the flag itself. -/
def TaskState.wait_returns_immediately (s : TaskState) : Bool :=
  s.completed

/-- Model of `TaskResult<T>` (task.rs lines 126-130): a task id plus the
shared `TaskState` (the `Arc` content is inlined; the handles below own a
private, unshared state, so a snapshot is exact for them). -/
structure TaskResult where
  id : Nat
  state : TaskState
deriving DecidableEq

/-- `TaskResult::<T>::null()` (task.rs lines 174-184): the INVALID id with a
fresh state that is already completed and holds no result. -/
def TaskResult.null : TaskResult :=
  { id := TaskId.INVALID, state := { result := none, completed := true } }

/-- Model of `TaskHandle` (task.rs lines 253-256). -/
structure TaskHandle where
  id : Nat
  state : TaskState
deriving DecidableEq

/-- `TaskHandle::null()` (task.rs lines 259-268). -/
def TaskHandle.null : TaskHandle :=
  { id := TaskId.INVALID, state := { result := none, completed := true } }

/-- `TaskResult::try_get` (task.rs lines 202-217), for the static type with
tag `t`.  Returns the extracted value (if any) and the state left behind.
Note the source does `result.take()?.downcast().ok()`: the slot is emptied
by `take` before the downcast is checked. -/
def TaskResult.try_get (t : Nat) (s : TaskState) : Option Nat × TaskState :=
  if s.completed then
    match s.result with
    | none => (none, s)
    | some v => (downcast t v, { s with result := none })
  else
    (none, s)

/-- Outcome of a call to the consuming getter: either the value, or a fatal
panic with the source panic message. -/
inductive GetOutcome where
  | ok (x : Nat)
  | panicked (msg : String)
deriving DecidableEq

/-- `TaskResult::get` (task.rs lines 219-233), for the static type with tag
`t`, applied to the state observed after the preceding `self.wait()`
returns (the completion flag is monotone, so that state has
`completed = true`; the `completed = false` branch of the source is kept for
faithfulness).  `take()` empties the slot, then `expect`/`downcast().expect`
panic on an empty slot or a tag mismatch. -/
def TaskResult.get (t : Nat) (s : TaskState) : GetOutcome × TaskState :=
  if s.completed then
    match s.result with
    | none =>
        (GetOutcome.panicked "Task is not completed or result had been taken!",
         { s with result := none })
    | some v =>
        match downcast t v with
        | some x => (GetOutcome.ok x, { s with result := none })
        | none => (GetOutcome.panicked "Result type mismatched!", { s with result := none })
  else
    (GetOutcome.panicked "Task is not completed!", s)

/-!
### Association-list model of the hash maps

`HashMap<TaskId, _>` and `HashMap<String, _>` become association lists whose
keys are kept unique by construction (`assocInsert` removes any previous
binding first, as `HashMap::insert` overwrites).
-/

/-- `HashMap::get` on an association list. -/
def assocLookup {K V : Type} [DecidableEq K] : List (K × V) → K → Option V
  | [], _ => none
  | (k, v) :: l, key => if k = key then some v else assocLookup l key

/-- `HashMap::remove` on an association list (drops the first binding of the
key; keys are unique, so this is the only binding). -/
def assocErase {K V : Type} [DecidableEq K] : List (K × V) → K → List (K × V)
  | [], _ => []
  | (k, v) :: l, key => if k = key then l else (k, v) :: assocErase l key

/-- `HashMap::insert` on an association list: overwrite any previous binding. -/
def assocInsert {K V : Type} [DecidableEq K] (l : List (K × V)) (key : K) (v : V) :
    List (K × V) :=
  assocErase l key ++ [(key, v)]

/-- `HashMap::contains_key` on an association list. -/
def assocContains {K V : Type} [DecidableEq K] (l : List (K × V)) (key : K) : Bool :=
  (assocLookup l key).isSome

/-!
### Queue entries and the readiness predicate (executor.rs lines 14-43)
-/

/-- `QueuedTask` (executor.rs lines 14-17): a task id plus the list of
dependency `Arc<TaskState>` references (heap indices here). -/
structure QueuedTask where
  id : Nat
  dependencies : List Nat
deriving DecidableEq

/-- Dereference a heap index; a dangling index yields a default state whose
flag is false (no dangling index is ever created by the operations below). -/
def getState (states : List TaskState) (r : Nat) : TaskState :=
  states.getD r { result := none, completed := false }

/-- `QueuedTask::ready_to_execute` (executor.rs lines 33-37): the logical AND
of `completed()` over the dependency list. -/
def QueuedTask.ready_to_execute (states : List TaskState) (q : QueuedTask) : Bool :=
  q.dependencies.all (fun r => (getState states r).completed)

/-!
### The worker loop (worker.rs)

`WorkerState` mirrors exactly the data a `WorkerThread` can reach through its
fields (worker.rs lines 11-21): the shared heap of task states, its own
thread-local queue/storage/callback map, the global queue/storage/callback
map, and the waker registry (reduced to the list of ids that were woken).
The shutdown flag is handled by the caller of the per-iteration function.
-/

/-- `BoxedTask` (task.rs lines 50-54): the closure is opaque, so only its id
and the erased value that `execute` will produce are retained. -/
structure BoxedTask where
  id : Nat
  output : ErasedValue
deriving DecidableEq

/-- The state visible to one `WorkerThread` (worker.rs lines 11-21). -/
structure WorkerState where
  states : List TaskState
  localQueue : List QueuedTask
  localStorage : List (Nat × BoxedTask)
  localHandles : List (Nat × Nat)
  globalQueue : List QueuedTask
  globalStorage : List (Nat × BoxedTask)
  globalHandles : List (Nat × Nat)
  woken : List Nat
deriving DecidableEq

/-- Write the result of task completion into the heap cell `r`:
the completion callback registered by `register_task` (executor.rs lines
247-249 and 253-255) is `move |result| inner_task_state.set_result(result)`. -/
def setResultAt (states : List TaskState) (r : Nat) (v : ErasedValue) : List TaskState :=
  states.set r ((getState states r).set_result v)

/-- `WorkerThread::execute_local_task` (worker.rs lines 95-113): remove the
boxed task from the thread-local storage; if present, execute it, remove and
invoke the matching completion callback, wake the waker registry, and report
`true`; otherwise report `false`. -/
def execute_local_task (st : WorkerState) (task_id : Nat) : WorkerState × Bool :=
  match assocLookup st.localStorage task_id with
  | none => (st, false)
  | some task =>
      let st1 := { st with localStorage := assocErase st.localStorage task_id }
      let result := task.output
      let st2 :=
        match assocLookup st1.localHandles task_id with
        | none => { st1 with localHandles := st1.localHandles }
        | some r =>
            { st1 with
              localHandles := assocErase st1.localHandles task_id
              states := setResultAt st1.states r result }
      ({ st2 with woken := st2.woken ++ [task_id] }, true)

/-- `WorkerThread::execute_task` (worker.rs lines 115-133): identical to
`execute_local_task` but over the global storage and callback map. -/
def execute_task (st : WorkerState) (task_id : Nat) : WorkerState × Bool :=
  match assocLookup st.globalStorage task_id with
  | none => (st, false)
  | some task =>
      let st1 := { st with globalStorage := assocErase st.globalStorage task_id }
      let result := task.output
      let st2 :=
        match assocLookup st1.globalHandles task_id with
        | none => { st1 with globalHandles := st1.globalHandles }
        | some r =>
            { st1 with
              globalHandles := assocErase st1.globalHandles task_id
              states := setResultAt st1.states r result }
      ({ st2 with woken := st2.woken ++ [task_id] }, true)

/-- Step 1 of a worker iteration (worker.rs lines 54-67):
`while let Some(task) = local_queue.pop()` - a popped record that is ready is
executed and the scan ends; a record that is not ready is pushed back onto
the tail of the local queue and the scan continues with the next pop.
The scan also ends when a pop finds the queue empty.  The Rust scan need not
terminate (a queue holding only not-ready records is cycled forever), so the
function takes fuel; exhausted fuel performs no further action.
The result component is `none` when no record passed the readiness check, and
`some (id, executed)` when the record with id `id` passed it,
`executed` being the flag returned by `execute_local_task`
(`executed_local_task` in the source). -/
def drainLocal : Nat → WorkerState → WorkerState × Option (Nat × Bool)
  | 0, st => (st, none)
  | fuel + 1, st =>
      match st.localQueue with
      | [] => (st, none)
      | q :: rest =>
          if QueuedTask.ready_to_execute st.states q then
            let (st1, executed) := execute_local_task { st with localQueue := rest } q.id
            (st1, some (q.id, executed))
          else
            drainLocal fuel { st with localQueue := rest ++ [q] }

/-- Step 2 of a worker iteration (worker.rs lines 69-86): the same scan over
the global queue, with `execute_task`; a not-ready record is pushed back onto
the tail of the global queue. -/
def drainGlobal : Nat → WorkerState → WorkerState × Option (Nat × Bool)
  | 0, st => (st, none)
  | fuel + 1, st =>
      match st.globalQueue with
      | [] => (st, none)
      | q :: rest =>
          if QueuedTask.ready_to_execute st.states q then
            let (st1, executed) := execute_task { st with globalQueue := rest } q.id
            (st1, some (q.id, executed))
          else
            drainGlobal fuel { st with globalQueue := rest ++ [q] }

/-- One iteration of `WorkerThread::run` (worker.rs lines 51-92): drain the
local queue; only if no local task was executed, scan the global queue; the
idle sleep has no observable state effect.  Returns the final state and the
pair `(executed_local_task, executed_global_task)`. -/
def workerIteration (fuel : Nat) (st : WorkerState) : WorkerState × Bool × Bool :=
  let (st1, rLocal) := drainLocal fuel st
  let executedLocal := match rLocal with
    | some (_, b) => b
    | none => false
  if executedLocal then
    (st1, true, false)
  else
    let (st2, rGlobal) := drainGlobal fuel st1
    let executedGlobal := match rGlobal with
      | some (_, b) => b
      | none => false
    (st2, executedLocal, executedGlobal)

/-- The *specified* local-drain behaviour, written from the spec sentence
"if not ready, push back and stop draining local for this iteration" (spec
section 4.4 step 1), for comparison with `drainLocal`, which is written from
the source: here the first not-ready record ends the scan. -/
def drainLocalSpec (st : WorkerState) : WorkerState × Option (Nat × Bool) :=
  match st.localQueue with
  | [] => (st, none)
  | q :: rest =>
      if QueuedTask.ready_to_execute st.states q then
        let (st1, executed) := execute_local_task { st with localQueue := rest } q.id
        (st1, some (q.id, executed))
      else
        ({ st with localQueue := rest ++ [q] }, none)

/-- In-place update of the value bound to an existing key (the Rust maps hold
`Arc`ed values mutated in place, so the binding order never changes). -/
def assocUpdate {K V : Type} [DecidableEq K] : List (K × V) → K → V → List (K × V)
  | [], _, _ => []
  | (k, v) :: l, key, nv =>
      if k = key then (k, nv) :: l else (k, v) :: assocUpdate l key nv

/-!
### The scheduler facade (executor.rs)

`World` adds to the executor the two pieces of ambient shared state: the
process-wide `TaskId` counter (task.rs lines 12-15) and the heap of
`Arc<TaskState>` cells.
-/

/-- `ThreadInfo` (executor.rs lines 46-49): the shutdown flag; the OS join
handle itself carries no data, and `join` is modelled by the event lists
returned by `join_all_workers`. -/
structure ThreadInfo where
  shutdown : Bool
deriving DecidableEq

/-- `ThreadLocalState` (executor.rs lines 69-74). -/
structure ThreadLocalState where
  local_queue : List QueuedTask
  task_storage : List (Nat × BoxedTask)
  task_complete_handles : List (Nat × Nat)
deriving DecidableEq

/-- `ThreadLocalState::default()`. -/
def ThreadLocalState.empty : ThreadLocalState :=
  { local_queue := [], task_storage := [], task_complete_handles := [] }

/-- `TaskExecutor` (executor.rs lines 76-87).  The waker registry is reduced
to the list of ids holding registered wakers. -/
structure TaskExecutor where
  thread_registry : List (String × ThreadInfo)
  global_queue : List QueuedTask
  thread_local_states : List (String × ThreadLocalState)
  task_storage : List (Nat × BoxedTask)
  task_complete_handles : List (Nat × Nat)
  waker_registry : List Nat
deriving DecidableEq

/-- The executor together with the ambient id counter and the heap of task
states. -/
structure World where
  counter : Nat
  states : List TaskState
  exec : TaskExecutor
deriving DecidableEq

/-- A world holding a freshly constructed, not yet configured executor. -/
def World.empty : World :=
  { counter := 0
    states := []
    exec :=
      { thread_registry := []
        global_queue := []
        thread_local_states := []
        task_storage := []
        task_complete_handles := []
        waker_registry := [] } }

/-- `BoxedTask::new` (task.rs lines 56-70): draw a fresh id from the
process-wide wrapping 64-bit counter (`TaskId::new`, task.rs lines 12-15)
and box the closure (whose eventual output is `out`). -/
def BoxedTask.new (out : ErasedValue) (w : World) : BoxedTask × World :=
  ({ id := w.counter % 2 ^ 64, output := out }, { w with counter := w.counter + 1 })

/-- Outcome of `register_task`: the heap index of the freshly allocated
`TaskState`, or the `expect` panic on a missing thread-local state. -/
inductive RegOutcome where
  | ok (ref : Nat) (w : World)
  | panicked (msg : String)
deriving DecidableEq

/-- `TaskExecutor::register_task` (executor.rs lines 234-259): allocate a
fresh `TaskState`, then insert the boxed task and a completion callback
(which will `set_result` that state) into either the named thread-local maps
or the global maps.  A dedicate-thread name without a thread-local state hits
the `expect` panic. -/
def register_task (task : BoxedTask) (dedicate_thread : Option String) (w : World) :
    RegOutcome :=
  let task_id := task.id
  let r := w.states.length
  let w1 := { w with states := w.states ++ [TaskState.new] }
  match dedicate_thread with
  | some thread_name =>
      match assocLookup w1.exec.thread_local_states thread_name with
      | none =>
          RegOutcome.panicked
            ("Try to submit to thread [" ++ thread_name ++
             "] without registration into TaskExecutor")
      | some ls =>
          let ls1 :=
            { ls with
              task_storage := assocInsert ls.task_storage task_id task
              task_complete_handles := assocInsert ls.task_complete_handles task_id r }
          RegOutcome.ok r
            { w1 with
              exec :=
                { w1.exec with
                  thread_local_states :=
                    assocUpdate w1.exec.thread_local_states thread_name ls1 } }
  | none =>
      RegOutcome.ok r
        { w1 with
          exec :=
            { w1.exec with
              task_storage := assocInsert w1.exec.task_storage task_id task
              task_complete_handles :=
                assocInsert w1.exec.task_complete_handles task_id r } }

/-- A returned handle at world level: the task id and the heap index of its
shared `TaskState`. -/
structure HandleRef where
  id : Nat
  ref : Nat
deriving DecidableEq

/-- Outcome of a submission: a handle, the recoverable `anyhow` error, or a
panic.  The surviving world is carried alongside (a panic tears the process
down, so none is carried there). -/
inductive SubmitOutcome where
  | ok (h : HandleRef) (w : World)
  | err (msg : String) (w : World)
  | panicked (msg : String)
deriving DecidableEq

/-- A single-quote character, for rendering the source error message
`Thread '{}' not found` without an apostrophe in this file. -/
def singleQuote : String := String.mk [Char.ofNat 39]

/-- The recoverable error message of `submit_to`/`submit_to_after`
(executor.rs lines 148 and 205). -/
def threadNotFoundMsg (thread_name : String) : String :=
  "Thread " ++ singleQuote ++ thread_name ++ singleQuote ++ " not found"

/-- `TaskExecutor::submit` (executor.rs lines 122-136): box, register into
the global maps, push a zero-dependency record onto the global queue. -/
def TaskExecutor.submit (out : ErasedValue) (w : World) : SubmitOutcome :=
  let (boxed_task, w1) := BoxedTask.new out w
  let task_id := boxed_task.id
  match register_task boxed_task none w1 with
  | RegOutcome.panicked m => SubmitOutcome.panicked m
  | RegOutcome.ok r w2 =>
      SubmitOutcome.ok { id := task_id, ref := r }
        { w2 with
          exec :=
            { w2.exec with
              global_queue :=
                w2.exec.global_queue ++ [{ id := task_id, dependencies := [] }] } }

/-- `TaskExecutor::submit_to` (executor.rs lines 138-168): first check the
thread registry and fail recoverably when the name is absent; only then box
the task (allocating an id), register it into that thread, and push a
zero-dependency record onto that thread's local queue. -/
def TaskExecutor.submit_to (thread_name : String) (out : ErasedValue) (w : World) :
    SubmitOutcome :=
  if ¬ assocContains w.exec.thread_registry thread_name then
    SubmitOutcome.err (threadNotFoundMsg thread_name) w
  else
    let (boxed_task, w1) := BoxedTask.new out w
    let task_id := boxed_task.id
    match register_task boxed_task (some thread_name) w1 with
    | RegOutcome.panicked m => SubmitOutcome.panicked m
    | RegOutcome.ok r w2 =>
        match assocLookup w2.exec.thread_local_states thread_name with
        | none =>
            SubmitOutcome.panicked
              ("Try to submit to thread [" ++ thread_name ++
               "] without registration into TaskExecutor.")
        | some ls =>
            let ls1 :=
              { ls with
                local_queue := ls.local_queue ++ [{ id := task_id, dependencies := [] }] }
            SubmitOutcome.ok { id := task_id, ref := r }
              { w2 with
                exec :=
                  { w2.exec with
                    thread_local_states :=
                      assocUpdate w2.exec.thread_local_states thread_name ls1 } }

/-- `TaskExecutor::submit_after` (executor.rs lines 170-192): as `submit`,
but the pushed record carries the dependency states (heap indices obtained
from the dependency handles by `as_state`). -/
def TaskExecutor.submit_after (out : ErasedValue) (dependencies : List Nat) (w : World) :
    SubmitOutcome :=
  let (boxed_task, w1) := BoxedTask.new out w
  let task_id := boxed_task.id
  match register_task boxed_task none w1 with
  | RegOutcome.panicked m => SubmitOutcome.panicked m
  | RegOutcome.ok r w2 =>
      SubmitOutcome.ok { id := task_id, ref := r }
        { w2 with
          exec :=
            { w2.exec with
              global_queue :=
                w2.exec.global_queue ++ [{ id := task_id, dependencies := dependencies }] } }

/-- `TaskExecutor::submit_to_after` (executor.rs lines 194-232): as
`submit_to`, but the record pushed onto the thread's local queue carries the
dependency states. -/
def TaskExecutor.submit_to_after (thread_name : String) (out : ErasedValue)
    (dependencies : List Nat) (w : World) : SubmitOutcome :=
  if ¬ assocContains w.exec.thread_registry thread_name then
    SubmitOutcome.err (threadNotFoundMsg thread_name) w
  else
    let (boxed_task, w1) := BoxedTask.new out w
    let task_id := boxed_task.id
    match register_task boxed_task (some thread_name) w1 with
    | RegOutcome.panicked m => SubmitOutcome.panicked m
    | RegOutcome.ok r w2 =>
        match assocLookup w2.exec.thread_local_states thread_name with
        | none =>
            SubmitOutcome.panicked
              ("Try to submit to thread [" ++ thread_name ++
               "] without registration into TaskExecutor.")
        | some ls =>
            let ls1 :=
              { ls with
                local_queue :=
                  ls.local_queue ++ [{ id := task_id, dependencies := dependencies }] }
            SubmitOutcome.ok { id := task_id, ref := r }
              { w2 with
                exec :=
                  { w2.exec with
                    thread_local_states :=
                      assocUpdate w2.exec.thread_local_states thread_name ls1 } }

/-- `TaskExecutor::join_all_workers` (executor.rs lines 368-375): drain the
whole thread registry, requesting shutdown of and joining every entry
(blocking), then clear all thread-local state and the waker registry.
Returns the new world and the list of joined threads (each with its shutdown
flag raised, in drain order). -/
def join_all_workers (w : World) : World × List (String × ThreadInfo) :=
  let joined := w.exec.thread_registry.map (fun p => (p.1, { p.2 with shutdown := true }))
  ({ w with
     exec :=
       { w.exec with
         thread_registry := []
         thread_local_states := []
         waker_registry := [] } },
   joined)

/-- Fuelled helper for `decimalDigits`: the division chain `n / 10` strictly
decreases, so the fuel `n` of `decimalDigits` is never exhausted; structural
recursion on the fuel keeps the function kernel-reducible. -/
def decimalDigitsAux : Nat → Nat → List Nat
  | 0, n => [n % 10]
  | fuel + 1, n => if n < 10 then [n] else decimalDigitsAux fuel (n / 10) ++ [n % 10]

/-- The decimal digits of `n`, most significant first (the rendering of
`format!("{}")` for an unsigned integer). -/
def decimalDigits (n : Nat) : List Nat :=
  decimalDigitsAux n n

/-- `format!("{}", n)` for `n : u32`: the decimal numeral as a string. -/
def decimalRepr (n : Nat) : String :=
  String.mk ((decimalDigits n).map Nat.digitChar)

/-- The name given to thread `i` of a `(name, count)` configuration entry
(executor.rs lines 380-384): the bare name when `count == 1`, otherwise
`format!("{}_{}", name, i)`. -/
def threadNameFor (thread_name : String) (count i : Nat) : String :=
  if count = 1 then thread_name else thread_name ++ "_" ++ decimalRepr i

/-- The body of the spawn loop (executor.rs lines 379-409) for thread `i` of
a `(name, count)` entry: insert a fresh `ThreadLocalState` under the
generated name, then register the spawned thread (shutdown flag false). -/
def spawnStep (thread_name : String) (count : Nat) (w : World) (i : Nat) : World :=
  let name := threadNameFor thread_name count i
  { w with
    exec :=
      { w.exec with
        thread_local_states :=
          assocInsert w.exec.thread_local_states name ThreadLocalState.empty
        thread_registry :=
          assocInsert w.exec.thread_registry name { shutdown := false } } }

/-- `TaskExecutor::spawn_threads` (executor.rs lines 377-412): for each
`(name, count)` entry spawn one thread per `i in 0..(count as u32)` - note
the silent `usize`-to-`u32` truncation of `count`. -/
def spawn_threads (thread_configs : List (String × Nat)) (w : World) : World :=
  thread_configs.foldl
    (fun w p => (List.range (p.2 % 2 ^ 32)).foldl (spawnStep p.1 p.2) w)
    w

/-- `TaskExecutor::config` (executor.rs lines 363-366): join all current
workers, then spawn threads per the new configuration.  Also returns the
joined threads. -/
def TaskExecutor.config (thread_configs : List (String × Nat)) (w : World) :
    World × List (String × ThreadInfo) :=
  let (w1, joined) := join_all_workers w
  (spawn_threads thread_configs w1, joined)

/-- `impl Drop for TaskExecutor` (executor.rs lines 415-419): exactly
`join_all_workers`. -/
def TaskExecutor.drop (w : World) : World × List (String × ThreadInfo) :=
  join_all_workers w

/-!
### The completion protocol as a small-step system (for the write-once /
write-before-flag invariant)

The pure per-iteration worker function above treats a task execution as one
step.  To reason about the ordering *inside* `set_result` (task.rs lines
100-112) under arbitrary interleaving of workers, the protocol is broken
into its atomic actions, each one an acquisition of one lock or one atomic
store of the source:

* `register` - `register_task` allocates a fresh `TaskState` and inserts a
  completion callback for a fresh id (executor.rs lines 234-259);
* `remove_handle` - a worker removes the completion callback for an id from
  the (locked) callback map and is about to invoke it with the erased result
  (worker.rs lines 103 and 123);
* `store_result` - inside `set_result`, the worker stores the result into
  the (locked) slot: `*self.result.lock() = Some(result)` (task.rs line 101);
* `set_completed` - the worker then sets the atomic completion flag
  (task.rs lines 102, 109-112);
* `take_result` - an observer holding the handle sees the flag true and
  takes the value out of the slot (`try_get`/`get`, task.rs lines 202-233).

`pendingStore`/`pendingFlag` hold the program counters of the workers that
are between two of these actions.  `writeLog`, `flagLog` and `takeLog` are
ghost event logs used only to state the theorem.
-/

/-- The shared state of the completion protocol, with the in-flight worker
positions and the ghost event logs. -/
structure CompletionSys where
  nextId : Nat
  states : List TaskState
  handles : List (Nat × Nat)
  pendingStore : List (Nat × ErasedValue)
  pendingFlag : List Nat
  writeLog : List Nat
  flagLog : List Nat
  takeLog : List Nat
deriving DecidableEq

/-- The initial system: no tasks registered, nothing in flight. -/
def CompletionSys.init : CompletionSys :=
  { nextId := 0, states := [], handles := [], pendingStore := []
    pendingFlag := [], writeLog := [], flagLog := [], takeLog := [] }

/-- One atomic action of the completion protocol (see the section comment
for the source line of each constructor). -/
inductive CStep : CompletionSys → CompletionSys → Prop where
  | register (s : CompletionSys) :
      CStep s
        { s with
          nextId := s.nextId + 1
          states := s.states ++ [TaskState.new]
          handles := assocInsert s.handles s.nextId s.states.length }
  | remove_handle (s : CompletionSys) (id r : Nat) (v : ErasedValue)
      (hlook : assocLookup s.handles id = some r) :
      CStep s
        { s with
          handles := assocErase s.handles id
          pendingStore := s.pendingStore ++ [(r, v)] }
  | store_result (s : CompletionSys) (p1 p2 : List (Nat × ErasedValue))
      (r : Nat) (v : ErasedValue)
      (hsplit : s.pendingStore = p1 ++ (r, v) :: p2) :
      CStep s
        { s with
          pendingStore := p1 ++ p2
          states := s.states.set r { getState s.states r with result := some v }
          pendingFlag := s.pendingFlag ++ [r]
          writeLog := s.writeLog ++ [r] }
  | set_completed (s : CompletionSys) (q1 q2 : List Nat) (r : Nat)
      (hsplit : s.pendingFlag = q1 ++ r :: q2) :
      CStep s
        { s with
          pendingFlag := q1 ++ q2
          states := s.states.set r { getState s.states r with completed := true }
          flagLog := s.flagLog ++ [r] }
  | take_result (s : CompletionSys) (r : Nat) (v : ErasedValue)
      (hcomp : (getState s.states r).completed = true)
      (hres : (getState s.states r).result = some v) :
      CStep s
        { s with
          states := s.states.set r { getState s.states r with result := none }
          takeLog := s.takeLog ++ [r] }

/-- The states of the completion protocol reachable from the initial one by
any interleaving of the atomic actions. -/
inductive CReachable : CompletionSys → Prop where
  | init : CReachable CompletionSys.init
  | step {s s' : CompletionSys} : CReachable s → CStep s s' → CReachable s'

/-- How many of the four callback/worker phases currently hold a token for
the heap cell `r`.  A cell is created with no token; `register` hands it one
(the completion callback); the token then travels
callback map -> pendingStore -> pendingFlag -> flagLog. -/
def phaseCount (s : CompletionSys) (r : Nat) : Nat :=
  (s.handles.map Prod.snd).count r + (s.pendingStore.map Prod.fst).count r +
    s.pendingFlag.count r + s.flagLog.count r

/-!
### Helper lemmas about the association-list maps
-/

lemma assocLookup_append_right {K V : Type} [DecidableEq K] {l m : List (K × V)} {k : K}
    (h : assocLookup l k = none) : assocLookup (l ++ m) k = assocLookup m k := by
  induction l with
  | nil => simp
  | cons p l ih =>
      obtain ⟨a, b⟩ := p
      by_cases hak : a = k
      · simp [assocLookup, hak] at h
      · simp only [assocLookup, hak, if_false, List.cons_append] at h ⊢
        exact ih h

lemma assocErase_of_lookup_none {K V : Type} [DecidableEq K] {l : List (K × V)} {k : K}
    (h : assocLookup l k = none) : assocErase l k = l := by
  induction l with
  | nil => simp [assocErase]
  | cons p l ih =>
      obtain ⟨a, b⟩ := p
      by_cases hak : a = k
      · simp [assocLookup, hak] at h
      · simp only [assocLookup, hak, if_false] at h
        simp [assocErase, hak, ih h]

lemma assocLookup_insert_fresh {K V : Type} [DecidableEq K] {l : List (K × V)} {k : K}
    (v : V) (h : assocLookup l k = none) : assocLookup (assocInsert l k v) k = some v := by
  rw [assocInsert, assocErase_of_lookup_none h, assocLookup_append_right h]
  simp [assocLookup]

lemma assocLookup_update_self {K V : Type} [DecidableEq K] {l : List (K × V)} {k : K}
    {x : V} (v : V) (h : assocLookup l k = some x) :
    assocLookup (assocUpdate l k v) k = some v := by
  induction l with
  | nil => simp [assocLookup] at h
  | cons p l ih =>
      obtain ⟨a, b⟩ := p
      by_cases hak : a = k
      · subst hak
        simp [assocUpdate, assocLookup]
      · simp only [assocLookup, hak, if_false] at h
        simp only [assocUpdate, hak, if_false, assocLookup]
        exact ih h

lemma mem_assocErase {K V : Type} [DecidableEq K] {l : List (K × V)} {k : K}
    {p : K × V} (h : p ∈ assocErase l k) : p ∈ l := by
  induction l with
  | nil => simp [assocErase] at h
  | cons q l ih =>
      obtain ⟨a, b⟩ := q
      by_cases hak : a = k
      · simp only [assocErase, hak, if_true] at h
        exact List.mem_cons_of_mem _ h
      · simp only [assocErase, hak, if_false, List.mem_cons] at h
        rcases h with h | h
        · exact h ▸ List.mem_cons_self _ _
        · exact List.mem_cons_of_mem _ (ih h)

lemma mem_assocInsert {K V : Type} [DecidableEq K] {l : List (K × V)} {k : K} {v : V}
    {p : K × V} (h : p ∈ assocInsert l k v) : p ∈ l ∨ p = (k, v) := by
  rw [assocInsert, List.mem_append] at h
  rcases h with h | h
  · exact Or.inl (mem_assocErase h)
  · simp at h
    exact Or.inr h

lemma assocErase_split {K V : Type} [DecidableEq K] {l : List (K × V)} {k : K} {v : V}
    (h : assocLookup l k = some v) :
    ∃ l1 l2, l = l1 ++ (k, v) :: l2 ∧ assocErase l k = l1 ++ l2 := by
  induction l with
  | nil => simp [assocLookup] at h
  | cons p l ih =>
      obtain ⟨a, b⟩ := p
      by_cases hak : a = k
      · subst hak
        simp [assocLookup] at h
        subst h
        exact ⟨[], l, rfl, by simp [assocErase]⟩
      · simp only [assocLookup, hak, if_false] at h
        obtain ⟨l1, l2, heq, her⟩ := ih h
        exact ⟨(a, b) :: l1, l2, by simp [heq],
               by simp [assocErase, hak, her]⟩

lemma count_eq_zero_of_forall_lt {l : List Nat} {n : Nat}
    (h : ∀ x ∈ l, x < n) : l.count n = 0 := by
  rw [List.count_eq_zero]
  intro hmem
  exact absurd rfl (Nat.ne_of_lt (h n hmem))

/-!
### Theorems for the completion state and the handles (task.rs)
-/

/-- C4: after `wait()` has returned (that is, on a state whose completion
flag is true), `get()` removes and returns the stored value when the slot
holds a value of the statically expected type; it panics - the source
`expect` calls, not a recoverable error - when the value was already taken
(empty slot) or when the erased value does not downcast to the expected
type; and a successful `get()` leaves a state on which any further `get()`
panics, so `get()` succeeds at most once per task. -/
theorem get_single_delivery (t : Nat) (s : TaskState) (hc : s.completed = true) :
    (∀ v, s.result = some v → v.tag = t →
        TaskResult.get t s = (GetOutcome.ok v.val, { s with result := none }))
    ∧ (s.result = none →
        (TaskResult.get t s).1 =
          GetOutcome.panicked "Task is not completed or result had been taken!")
    ∧ (∀ v, s.result = some v → v.tag ≠ t →
        (TaskResult.get t s).1 = GetOutcome.panicked "Result type mismatched!")
    ∧ (∀ x st', TaskResult.get t s = (GetOutcome.ok x, st') →
        (TaskResult.get t st').1 =
          GetOutcome.panicked "Task is not completed or result had been taken!") := by
  refine ⟨?_, ?_, ?_, ?_⟩
  · intro v hv htag
    simp [TaskResult.get, hc, hv, downcast, htag]
  · intro hv
    simp [TaskResult.get, hc, hv]
  · intro v hv htag
    simp [TaskResult.get, hc, hv, downcast, htag]
  · intro x st' hget
    rcases hres : s.result with _ | v
    · simp [TaskResult.get, hc, hres] at hget
    · by_cases htag : v.tag = t
      · simp [TaskResult.get, hc, hres, downcast, htag] at hget
        rw [← hget.2]
        simp [TaskResult.get, hc]
      · simp [TaskResult.get, hc, hres, downcast, htag] at hget

/-- C4 witness: a concrete completed state holding a value of the expected
type; `get` returns it and empties the slot. -/
theorem get_single_delivery_witness :
    TaskResult.get 3 { result := some { tag := 3, val := 11 }, completed := true }
      = (GetOutcome.ok 11, { result := none, completed := true }) :=
  (get_single_delivery 3
    { result := some { tag := 3, val := 11 }, completed := true } (by decide)).1
    { tag := 3, val := 11 } rfl rfl

/-- C9 counterexample: a completed state whose slot still holds a value (of
runtime tag 1, read at static type tag 0, as can happen only when the
bookkeeping that pairs tags is broken): `try_get` returns `none` even though
the flag is set and the slot holds a value - and it still removes the value
from the slot - contradicting "returns Some(value) exactly when the
completed flag is set and the result slot still holds a value". -/
theorem try_get_mismatch_counterexample :
    (TaskResult.try_get 0 { result := some { tag := 1, val := 7 }, completed := true }).1
        = none
    ∧ ({ result := some { tag := 1, val := 7 }, completed := true } : TaskState).completed
        = true
    ∧ ({ result := some { tag := 1, val := 7 }, completed := true } : TaskState).result
        ≠ none
    ∧ (TaskResult.try_get 0
        { result := some { tag := 1, val := 7 }, completed := true }).2.result = none := by
  decide

/-- C9 (amended): `try_get` never blocks (it is a total function of the
observed state) and never returns an error; it returns `some x` exactly when
the completion flag is set and the slot holds a value that downcasts to the
statically expected type (returning its payload and emptying the slot); in
every other case - not completed, value already taken, or a value of the
wrong runtime type - it returns `none`; on the wrong-type case the value is
nevertheless removed from the slot. -/
theorem try_get_amended (t : Nat) (s : TaskState) :
    (∀ x, (TaskResult.try_get t s).1 = some x ↔
        s.completed = true ∧ ∃ v, s.result = some v ∧ v.tag = t ∧ x = v.val)
    ∧ (s.completed = false → TaskResult.try_get t s = (none, s))
    ∧ (s.completed = true → s.result = none → TaskResult.try_get t s = (none, s))
    ∧ (∀ v, s.completed = true → s.result = some v →
        (TaskResult.try_get t s).2.result = none) := by
  refine ⟨?_, ?_, ?_, ?_⟩
  · intro x
    constructor
    · intro h
      rcases hcomp : s.completed with _ | _
      · simp [TaskResult.try_get, hcomp] at h
      · rcases hres : s.result with _ | v
        · simp [TaskResult.try_get, hcomp, hres] at h
        · simp only [TaskResult.try_get, hcomp, if_true, hres, downcast] at h
          by_cases htag : v.tag = t
          · simp only [htag, if_true] at h
            exact ⟨rfl, v, rfl, htag, by simpa using h.symm⟩
          · simp [htag] at h
    · rintro ⟨hcomp, v, hres, htag, hx⟩
      simp [TaskResult.try_get, hcomp, hres, downcast, htag, hx]
  · intro hcomp
    simp [TaskResult.try_get, hcomp]
  · intro hcomp hres
    simp [TaskResult.try_get, hcomp, hres]
  · intro v hcomp hres
    simp [TaskResult.try_get, hcomp, hres]

/-- C9 amended witness: on a concrete completed state holding a matching
value, `try_get` returns it. -/
theorem try_get_amended_witness :
    (TaskResult.try_get 2 { result := some { tag := 2, val := 9 }, completed := true }).1
        = some 9
    ∧ (TaskResult.try_get 2
        { result := some { tag := 2, val := 9 }, completed := true }).2.result = none := by
  have h := try_get_amended 2 { result := some { tag := 2, val := 9 }, completed := true }
  constructor
  · exact (h.1 9).mpr ⟨rfl, { tag := 2, val := 9 }, rfl, rfl, rfl⟩
  · exact h.2.2.2 { tag := 2, val := 9 } rfl rfl

/-- C10: the null handles (`TaskResult::null`, `TaskHandle::null`) carry the
reserved INVALID identifier and a state that is already completed but holds
no result; so `completed()` is true immediately, `wait()` hits its
early-return path and does not block, `try_get()` returns `none`, `get()`
panics, and a record depending on such a state is immediately ready. -/
theorem null_handle_properties (t : Nat) :
    TaskResult.null.id = TaskId.INVALID
    ∧ TaskHandle.null.id = TaskId.INVALID
    ∧ TaskId.INVALID = 2 ^ 64 - 1
    ∧ TaskResult.null.state.completed = true
    ∧ TaskResult.null.state.result = none
    ∧ TaskHandle.null.state = TaskResult.null.state
    ∧ TaskState.wait_returns_immediately TaskResult.null.state = true
    ∧ TaskResult.try_get t TaskResult.null.state = (none, TaskResult.null.state)
    ∧ (TaskResult.get t TaskResult.null.state).1 =
        GetOutcome.panicked "Task is not completed or result had been taken!"
    ∧ (∀ states r i, getState states r = TaskResult.null.state →
        QueuedTask.ready_to_execute states { id := i, dependencies := [r] } = true) := by
  refine ⟨rfl, rfl, rfl, rfl, rfl, rfl, rfl, ?_, ?_, ?_⟩
  · simp [TaskResult.try_get, TaskResult.null]
  · simp [TaskResult.get, TaskResult.null]
  · intro states r i h
    simp [QueuedTask.ready_to_execute, h, TaskResult.null]

/-- C10 witness: instantiated on a concrete one-cell heap holding the null
state, the dependent record is ready. -/
theorem null_handle_properties_witness :
    QueuedTask.ready_to_execute [TaskResult.null.state]
      { id := 5, dependencies := [0] } = true := by
  exact (null_handle_properties 0).2.2.2.2.2.2.2.2.2 [TaskResult.null.state] 0 5 rfl

/-!
### Theorems for the submission facade (executor.rs)
-/

/-- C3: submitting to a thread name that is not in the thread registry makes
`submit_to` and `submit_to_after` return the recoverable error
`Thread <name> not found` (and not a panic: the panicking paths are separate
`SubmitOutcome.panicked` outcomes) with the world returned untouched - in
particular the registry check precedes `BoxedTask::new`, so no task is boxed,
no identifier is drawn from the counter, and the task-state heap, the task
storage, the completion-callback maps and the queues are all exactly as
before.  For a registered name (whose thread-local state exists, as
`spawn_threads` guarantees, and with the fresh id not colliding in that
thread's maps), `submit_to` returns `Ok` with a handle after inserting the
boxed task and completion callback into that thread's local storage and
pushing a zero-dependency record onto that thread's local queue. -/
theorem submit_to_unregistered_is_recoverable_error (thread_name : String)
    (out : ErasedValue) (deps : List Nat) (w : World) :
    (assocContains w.exec.thread_registry thread_name = false →
        TaskExecutor.submit_to thread_name out w
            = SubmitOutcome.err (threadNotFoundMsg thread_name) w
        ∧ TaskExecutor.submit_to_after thread_name out deps w
            = SubmitOutcome.err (threadNotFoundMsg thread_name) w)
    ∧ (∀ ls, assocContains w.exec.thread_registry thread_name = true →
        assocLookup w.exec.thread_local_states thread_name = some ls →
        assocLookup ls.task_storage (w.counter % 2 ^ 64) = none →
        assocLookup ls.task_complete_handles (w.counter % 2 ^ 64) = none →
        ∃ w', TaskExecutor.submit_to thread_name out w
            = SubmitOutcome.ok { id := w.counter % 2 ^ 64, ref := w.states.length } w'
          ∧ w'.counter = w.counter + 1
          ∧ w'.states = w.states ++ [TaskState.new]
          ∧ ∃ ls', assocLookup w'.exec.thread_local_states thread_name = some ls'
              ∧ ls'.local_queue = ls.local_queue ++
                  [{ id := w.counter % 2 ^ 64, dependencies := [] }]
              ∧ assocLookup ls'.task_storage (w.counter % 2 ^ 64)
                  = some { id := w.counter % 2 ^ 64, output := out }
              ∧ assocLookup ls'.task_complete_handles (w.counter % 2 ^ 64)
                  = some w.states.length) := by
  constructor
  · intro habs
    constructor
    · simp [TaskExecutor.submit_to, habs]
    · simp [TaskExecutor.submit_to_after, habs]
  · intro ls hreg hls hfresh1 hfresh2
    have hupd1 : assocLookup
        (assocUpdate w.exec.thread_local_states thread_name
          { ls with
            task_storage :=
              assocInsert ls.task_storage (w.counter % 2 ^ 64)
                { id := w.counter % 2 ^ 64, output := out }
            task_complete_handles :=
              assocInsert ls.task_complete_handles (w.counter % 2 ^ 64)
                w.states.length }) thread_name
        = some
          { ls with
            task_storage :=
              assocInsert ls.task_storage (w.counter % 2 ^ 64)
                { id := w.counter % 2 ^ 64, output := out }
            task_complete_handles :=
              assocInsert ls.task_complete_handles (w.counter % 2 ^ 64)
                w.states.length } :=
      assocLookup_update_self _ hls
    have hstep : TaskExecutor.submit_to thread_name out w =
        SubmitOutcome.ok { id := w.counter % 2 ^ 64, ref := w.states.length }
          { counter := w.counter + 1
            states := w.states ++ [TaskState.new]
            exec :=
              { w.exec with
                thread_local_states :=
                  assocUpdate
                    (assocUpdate w.exec.thread_local_states thread_name
                      { ls with
                        task_storage :=
                          assocInsert ls.task_storage (w.counter % 2 ^ 64)
                            { id := w.counter % 2 ^ 64, output := out }
                        task_complete_handles :=
                          assocInsert ls.task_complete_handles (w.counter % 2 ^ 64)
                            w.states.length })
                    thread_name
                    { ls with
                      local_queue := ls.local_queue ++
                        [{ id := w.counter % 2 ^ 64, dependencies := [] }]
                      task_storage :=
                        assocInsert ls.task_storage (w.counter % 2 ^ 64)
                          { id := w.counter % 2 ^ 64, output := out }
                      task_complete_handles :=
                        assocInsert ls.task_complete_handles (w.counter % 2 ^ 64)
                          w.states.length } } } := by
      simp only [TaskExecutor.submit_to, hreg, BoxedTask.new, register_task, hls, hupd1]
      simp
    refine ⟨_, hstep, rfl, rfl, ?_⟩
    refine ⟨_, assocLookup_update_self _ hupd1, rfl, ?_, ?_⟩
    · exact assocLookup_insert_fresh _ hfresh1
    · exact assocLookup_insert_fresh _ hfresh2

/-- A concrete configured world: one registered thread named `main`. -/
def exWorldC3 : World :=
  { counter := 0
    states := []
    exec :=
      { thread_registry := [("main", { shutdown := false })]
        global_queue := []
        thread_local_states := [("main", ThreadLocalState.empty)]
        task_storage := []
        task_complete_handles := []
        waker_registry := [] } }

/-- C3 witness: on the concrete world, submitting to the unregistered name
`ghost` yields the recoverable error with the world untouched, and
submitting to the registered name `main` succeeds and registers the task. -/
theorem submit_to_unregistered_witness :
    TaskExecutor.submit_to "ghost" { tag := 0, val := 0 } exWorldC3
      = SubmitOutcome.err (threadNotFoundMsg "ghost") exWorldC3
    ∧ ∃ w', TaskExecutor.submit_to "main" { tag := 0, val := 0 } exWorldC3
        = SubmitOutcome.ok { id := 0, ref := 0 } w'
      ∧ w'.counter = 1
      ∧ w'.states = [TaskState.new]
      ∧ ∃ ls', assocLookup w'.exec.thread_local_states "main" = some ls'
          ∧ ls'.local_queue = [{ id := 0, dependencies := [] }]
          ∧ assocLookup ls'.task_storage 0
              = some { id := 0, output := { tag := 0, val := 0 } }
          ∧ assocLookup ls'.task_complete_handles 0 = some 0 := by
  have h := submit_to_unregistered_is_recoverable_error "ghost"
      { tag := 0, val := 0 } [] exWorldC3
  have h2 := submit_to_unregistered_is_recoverable_error "main"
      { tag := 0, val := 0 } [] exWorldC3
  refine ⟨(h.1 (by decide)).1, ?_⟩
  have hpos := h2.2 ThreadLocalState.empty (by decide) (by decide) (by decide) (by decide)
  simpa using hpos

/-- C6: `config` first performs `join_all_workers` - which drains the whole
thread registry, raising the shutdown flag of and joining every registered
thread, and clears all thread-local state (and the waker registry) - and
then spawns threads per the new specification; dropping the executor runs
exactly the same `join_all_workers`; and because the registry is drained by
the first teardown, a second teardown joins nothing and changes nothing, so
the two teardowns together join each thread exactly once (the joined-name
list of the first pass is exactly the registered-name list, and the second
pass joins the empty list); the model is total, so no panic path exists. -/
theorem config_joins_all_then_spawns (specs : List (String × Nat)) (w : World) :
    TaskExecutor.config specs w
        = (spawn_threads specs (join_all_workers w).1, (join_all_workers w).2)
    ∧ (join_all_workers w).2
        = w.exec.thread_registry.map (fun p => (p.1, { p.2 with shutdown := true }))
    ∧ (∀ p ∈ (join_all_workers w).2, p.2.shutdown = true)
    ∧ (join_all_workers w).2.map Prod.fst = w.exec.thread_registry.map Prod.fst
    ∧ (join_all_workers w).1.exec.thread_registry = []
    ∧ (join_all_workers w).1.exec.thread_local_states = []
    ∧ (join_all_workers w).1.exec.waker_registry = []
    ∧ TaskExecutor.drop w = join_all_workers w
    ∧ (join_all_workers (join_all_workers w).1).2 = []
    ∧ (join_all_workers (join_all_workers w).1).1 = (join_all_workers w).1 := by
  refine ⟨rfl, rfl, ?_, ?_, rfl, rfl, rfl, rfl, rfl, rfl⟩
  · intro p hp
    simp only [join_all_workers, List.mem_map] at hp
    obtain ⟨q, _, hq⟩ := hp
    rw [← hq]
  · simp [join_all_workers]

/-- C6 witness: concrete teardown of the one-thread world - the joined list
is the registered thread with its shutdown flag raised, and the raised flag
is confirmed through the theorem. -/
theorem config_joins_all_witness :
    (join_all_workers exWorldC3).2 = [("main", { shutdown := true })]
    ∧ (("main", ({ shutdown := true } : ThreadInfo)) : String × ThreadInfo).2.shutdown
        = true := by
  refine ⟨by decide, ?_⟩
  exact (config_joins_all_then_spawns [] exWorldC3).2.2.1
    ("main", { shutdown := true }) (by decide)

/-!
### Decimal numerals and the pool shape (executor.rs lines 377-412)
-/

/-- The value denoted by a most-significant-first decimal digit list. -/
def digitsVal (l : List Nat) : Nat :=
  l.foldl (fun acc d => 10 * acc + d) 0

lemma digitsVal_decimalDigitsAux :
    ∀ (fuel n : Nat), n ≤ fuel → digitsVal (decimalDigitsAux fuel n) = n := by
  intro fuel
  induction fuel with
  | zero =>
      intro n hn
      interval_cases n
      decide
  | succ fuel ih =>
      intro n hn
      by_cases h : n < 10
      · simp [decimalDigitsAux, h, digitsVal]
      · have hdiv : n / 10 ≤ fuel := by
          have : n / 10 < n := Nat.div_lt_self (by omega) (by norm_num)
          omega
        have := ih (n / 10) hdiv
        simp only [decimalDigitsAux, h, if_false, digitsVal, List.foldl_append] at this ⊢
        rw [this]
        simp only [List.foldl_cons, List.foldl_nil]
        omega

lemma digitsVal_decimalDigits (n : Nat) : digitsVal (decimalDigits n) = n :=
  digitsVal_decimalDigitsAux n n (Nat.le_refl n)

lemma decimalDigits_injective {a b : Nat} (h : decimalDigits a = decimalDigits b) :
    a = b := by
  have ha := digitsVal_decimalDigits a
  rw [h, digitsVal_decimalDigits b] at ha
  exact ha.symm

lemma decimalDigitsAux_lt_ten :
    ∀ (fuel n : Nat), ∀ d ∈ decimalDigitsAux fuel n, d < 10 := by
  intro fuel
  induction fuel with
  | zero =>
      intro n d hd
      simp only [decimalDigitsAux, List.mem_singleton] at hd
      subst hd
      exact Nat.mod_lt _ (by norm_num)
  | succ fuel ih =>
      intro n d hd
      by_cases h : n < 10
      · simp only [decimalDigitsAux, h, if_true, List.mem_singleton] at hd
        omega
      · simp only [decimalDigitsAux, h, if_false, List.mem_append,
          List.mem_singleton] at hd
        rcases hd with hd | hd
        · exact ih (n / 10) d hd
        · subst hd
          exact Nat.mod_lt _ (by norm_num)

lemma digitChar_inj_on_digits :
    ∀ a < 10, ∀ b < 10, Nat.digitChar a = Nat.digitChar b → a = b := by decide

lemma map_digitChar_inj :
    ∀ {l1 l2 : List Nat}, (∀ x ∈ l1, x < 10) → (∀ x ∈ l2, x < 10) →
      l1.map Nat.digitChar = l2.map Nat.digitChar → l1 = l2 := by
  intro l1
  induction l1 with
  | nil =>
      intro l2 _ _ h
      cases l2 with
      | nil => rfl
      | cons b l2 => simp at h
  | cons a l ih =>
      intro l2 h1 h2 h
      cases l2 with
      | nil => simp at h
      | cons b l2 =>
          simp only [List.map_cons, List.cons.injEq] at h
          have hab := digitChar_inj_on_digits a (h1 a (by simp)) b (h2 b (by simp)) h.1
          rw [hab, ih (fun x hx => h1 x (by simp [hx]))
            (fun x hx => h2 x (by simp [hx])) h.2]

lemma string_data_inj {a b : String} (h : a.data = b.data) : a = b := by
  cases a
  cases b
  exact congrArg String.mk (by simpa using h)

lemma decimalRepr_injective {a b : Nat} (h : decimalRepr a = decimalRepr b) : a = b := by
  apply decimalDigits_injective
  apply map_digitChar_inj (decimalDigitsAux_lt_ten a a) (decimalDigitsAux_lt_ten b b)
  have hd : (decimalRepr a).data = (decimalRepr b).data := by rw [h]
  simpa [decimalRepr, decimalDigits] using hd

lemma threadNameFor_inj {name : String} {count : Nat} (hc : count ≠ 1) {i j : Nat}
    (h : threadNameFor name count i = threadNameFor name count j) : i = j := by
  simp only [threadNameFor, hc, if_false] at h
  have hd := congrArg String.data h
  rw [String.data_append, String.data_append] at hd
  exact decimalRepr_injective (string_data_inj (List.append_cancel_left hd))

/-- The list of thread names one `(name, count)` configuration entry
produces, in spawn order (executor.rs lines 378-384, including the
`*count as u32` truncation). -/
def spawnNames (thread_name : String) (count : Nat) : List String :=
  (List.range (count % 2 ^ 32)).map (threadNameFor thread_name count)

lemma spawnNames_nodup (name : String) (count : Nat) : (spawnNames name count).Nodup := by
  by_cases hc : count = 1
  · subst hc
    have : (1 : Nat) % 2 ^ 32 = 1 := Nat.mod_eq_of_lt (by norm_num)
    simp [spawnNames, this, List.range_succ]
  · exact List.Nodup.map (fun i j h => threadNameFor_inj hc h) (List.nodup_range _)

lemma spawn_inner_fold (name : String) (count : Nat) :
    ∀ (L : List Nat) (w : World),
    (L.map (threadNameFor name count)).Nodup →
    (∀ n ∈ L.map (threadNameFor name count),
        assocLookup w.exec.thread_registry n = none) →
    (∀ n ∈ L.map (threadNameFor name count),
        assocLookup w.exec.thread_local_states n = none) →
    L.foldl (spawnStep name count) w
    = { w with
        exec :=
          { w.exec with
            thread_local_states := w.exec.thread_local_states ++
              (L.map (threadNameFor name count)).map
                (fun n => (n, ThreadLocalState.empty))
            thread_registry := w.exec.thread_registry ++
              (L.map (threadNameFor name count)).map
                (fun n => (n, ({ shutdown := false } : ThreadInfo))) } } := by
  intro L
  induction L with
  | nil =>
      intro w _ _ _
      simp
  | cons i L ih =>
      intro w hnodup hfresh1 hfresh2
      rw [List.map_cons] at hnodup
      obtain ⟨hni, hnodup2⟩ := List.nodup_cons.mp hnodup
      have hf1 := hfresh1 (threadNameFor name count i) (by simp)
      have hf2 := hfresh2 (threadNameFor name count i) (by simp)
      rw [List.foldl_cons]
      have hstart : spawnStep name count w i
          = { w with
              exec :=
                { w.exec with
                  thread_local_states := w.exec.thread_local_states ++
                    [(threadNameFor name count i, ThreadLocalState.empty)]
                  thread_registry := w.exec.thread_registry ++
                    [(threadNameFor name count i,
                      ({ shutdown := false } : ThreadInfo))] } } := by
        simp only [spawnStep, assocInsert, assocErase_of_lookup_none hf1,
          assocErase_of_lookup_none hf2]
      rw [hstart,
        ih _ hnodup2
          (by
            intro n hn
            have hne : threadNameFor name count i ≠ n := fun e => hni (e ▸ hn)
            show assocLookup
              (w.exec.thread_registry ++
                [(threadNameFor name count i, ({ shutdown := false } : ThreadInfo))]) n
              = none
            rw [assocLookup_append_right (hfresh1 n (List.mem_cons_of_mem _ hn))]
            simp [assocLookup, hne])
          (by
            intro n hn
            have hne : threadNameFor name count i ≠ n := fun e => hni (e ▸ hn)
            show assocLookup
              (w.exec.thread_local_states ++
                [(threadNameFor name count i, ThreadLocalState.empty)]) n
              = none
            rw [assocLookup_append_right (hfresh2 n (List.mem_cons_of_mem _ hn))]
            simp [assocLookup, hne])]
      simp

/-- C7 (amended): a `(name, count)` configuration entry spawns its threads
under the names `spawnNames name count`, appending one registry entry and
one fresh thread-local state per name (so each thread has its own local
state), and those names are pairwise distinct; `count == 1` yields exactly
the bare name with no suffix; for `2 <= count < 2^32` the names are exactly
`name_0 .. name_(count-1)` - `count` of them.  The `count < 2^32` bound is
forced by the source loop `for i in 0..(*count as u32)`, which silently
truncates `count` to 32 bits (see the counterexample). -/
theorem spawn_threads_pool_shape (name : String) (count : Nat) (w : World)
    (hfresh1 : ∀ n ∈ spawnNames name count,
        assocLookup w.exec.thread_registry n = none)
    (hfresh2 : ∀ n ∈ spawnNames name count,
        assocLookup w.exec.thread_local_states n = none) :
    (spawn_threads [(name, count)] w).exec.thread_registry
        = w.exec.thread_registry ++
          (spawnNames name count).map (fun n => (n, ({ shutdown := false } : ThreadInfo)))
    ∧ (spawn_threads [(name, count)] w).exec.thread_local_states
        = w.exec.thread_local_states ++
          (spawnNames name count).map (fun n => (n, ThreadLocalState.empty))
    ∧ (spawnNames name count).Nodup
    ∧ (count = 1 → spawnNames name count = [name])
    ∧ (2 ≤ count → count < 2 ^ 32 →
        spawnNames name count
            = (List.range count).map (fun i => name ++ "_" ++ decimalRepr i)
        ∧ (spawnNames name count).length = count) := by
  have hfold := spawn_inner_fold name count (List.range (count % 2 ^ 32)) w
      (spawnNames_nodup name count) hfresh1 hfresh2
  have hsp : spawn_threads [(name, count)] w
      = (List.range (count % 2 ^ 32)).foldl (spawnStep name count) w := rfl
  refine ⟨?_, ?_, spawnNames_nodup name count, ?_, ?_⟩
  · rw [hsp, hfold]
    simp [spawnNames]
  · rw [hsp, hfold]
    simp [spawnNames]
  · intro hc
    subst hc
    have h1 : (1 : Nat) % 2 ^ 32 = 1 := Nat.mod_eq_of_lt (by norm_num)
    simp [spawnNames, h1, List.range_succ, threadNameFor]
  · intro h2 hlt
    have hne : count ≠ 1 := by omega
    have hfn : threadNameFor name count = fun i => name ++ "_" ++ decimalRepr i := by
      funext i
      simp [threadNameFor, hne]
    constructor
    · rw [spawnNames, Nat.mod_eq_of_lt hlt, hfn]
    · rw [spawnNames, Nat.mod_eq_of_lt hlt]
      simp

/-- C7 counterexample: the spawn loop iterates `for i in 0..(*count as u32)`
(executor.rs line 379), so a count of `2^32` is truncated to zero
iterations: zero threads are spawned and registered, not `2^32` of them,
refuting "count > 1 spawns exactly count physically distinct threads" at
`count = 2^32`. -/
theorem spawn_threads_truncation_counterexample :
    (spawnNames "worker" (2 ^ 32)).length = 0
    ∧ (spawn_threads [("worker", 2 ^ 32)] World.empty).exec.thread_registry = []
    ∧ (2 ^ 32 : Nat) ≠ 0 := by
  refine ⟨?_, ?_, by norm_num⟩
  · simp [spawnNames, Nat.mod_self]
  · have hsp : spawn_threads [("worker", 2 ^ 32)] World.empty
        = (List.range (2 ^ 32 % 2 ^ 32)).foldl (spawnStep "worker" (2 ^ 32))
            World.empty := rfl
    rw [hsp, Nat.mod_self]
    simp [World.empty]

/-- C7 witness: `("worker", 3)` yields exactly the three threads `worker_0`,
`worker_1`, `worker_2`, and `("main", 1)` yields exactly `main`. -/
theorem spawn_threads_pool_shape_witness :
    (spawn_threads [("worker", 3)] World.empty).exec.thread_registry
      = [("worker_0", { shutdown := false }), ("worker_1", { shutdown := false }),
         ("worker_2", { shutdown := false })]
    ∧ spawnNames "main" 1 = ["main"] := by
  have h := spawn_threads_pool_shape "worker" 3 World.empty (by decide) (by decide)
  have h2 := spawn_threads_pool_shape "main" 1 World.empty (by decide) (by decide)
  refine ⟨?_, h2.2.2.2.1 rfl⟩
  rw [h.1]
  decide

/-!
### Lemmas about the worker drains (worker.rs lines 50-93)
-/

lemma execute_local_task_queues (st : WorkerState) (id : Nat) :
    (execute_local_task st id).1.globalQueue = st.globalQueue
    ∧ (execute_local_task st id).1.localQueue = st.localQueue := by
  unfold execute_local_task
  cases assocLookup st.localStorage id with
  | none => exact ⟨rfl, rfl⟩
  | some task =>
      dsimp only
      cases assocLookup st.localHandles id with
      | none => exact ⟨rfl, rfl⟩
      | some r => exact ⟨rfl, rfl⟩

lemma execute_task_queues (st : WorkerState) (id : Nat) :
    (execute_task st id).1.globalQueue = st.globalQueue
    ∧ (execute_task st id).1.localQueue = st.localQueue := by
  unfold execute_task
  cases assocLookup st.globalStorage id with
  | none => exact ⟨rfl, rfl⟩
  | some task =>
      dsimp only
      cases assocLookup st.globalHandles id with
      | none => exact ⟨rfl, rfl⟩
      | some r => exact ⟨rfl, rfl⟩

lemma drainLocal_not_ready_rot (fuel : Nat) (st : WorkerState) (q : QueuedTask)
    (rest : List QueuedTask) (hq : st.localQueue = q :: rest)
    (hnr : QueuedTask.ready_to_execute st.states q = false) :
    drainLocal (fuel + 1) st = drainLocal fuel { st with localQueue := rest ++ [q] } := by
  simp only [drainLocal, hq, hnr, Bool.false_eq_true, if_false]

lemma drainGlobal_not_ready_rot (fuel : Nat) (st : WorkerState) (q : QueuedTask)
    (rest : List QueuedTask) (hq : st.globalQueue = q :: rest)
    (hnr : QueuedTask.ready_to_execute st.states q = false) :
    drainGlobal (fuel + 1) st = drainGlobal fuel { st with globalQueue := rest ++ [q] } := by
  simp only [drainGlobal, hq, hnr, Bool.false_eq_true, if_false]

lemma drainLocal_spin (fuel : Nat) :
    ∀ (st : WorkerState) (q : QueuedTask), st.localQueue = [q] →
    QueuedTask.ready_to_execute st.states q = false →
    drainLocal fuel st = (st, none) := by
  induction fuel with
  | zero =>
      intro st q _ _
      rfl
  | succ fuel ih =>
      intro st q hq hnr
      rw [drainLocal_not_ready_rot fuel st q [] hq hnr]
      have heq : { st with localQueue := [] ++ [q] } = st := by
        show { st with localQueue := [q] } = st
        rw [← hq]
      rw [heq]
      exact ih st q hq hnr

lemma drainLocal_globalQueue (fuel : Nat) :
    ∀ st : WorkerState, ((drainLocal fuel st).1).globalQueue = st.globalQueue := by
  induction fuel with
  | zero =>
      intro st
      rfl
  | succ fuel ih =>
      intro st
      cases hq : st.localQueue with
      | nil => simp only [drainLocal, hq]
      | cons q rest =>
          by_cases hr : QueuedTask.ready_to_execute st.states q = true
          · simp only [drainLocal, hq, hr, if_true]
            rcases hex : execute_local_task { st with localQueue := rest } q.id with ⟨st1, ex⟩
            have := (execute_local_task_queues { st with localQueue := rest } q.id).1
            rw [hex] at this
            simpa using this
          · have hnr : QueuedTask.ready_to_execute st.states q = false :=
              Bool.not_eq_true _ ▸ eq_false_of_ne_true hr
            rw [drainLocal_not_ready_rot fuel st q rest hq hnr]
            exact ih _

lemma drainGlobal_localQueue (fuel : Nat) :
    ∀ st : WorkerState, ((drainGlobal fuel st).1).localQueue = st.localQueue := by
  induction fuel with
  | zero =>
      intro st
      rfl
  | succ fuel ih =>
      intro st
      cases hq : st.globalQueue with
      | nil => simp only [drainGlobal, hq]
      | cons q rest =>
          by_cases hr : QueuedTask.ready_to_execute st.states q = true
          · simp only [drainGlobal, hq, hr, if_true]
            rcases hex : execute_task { st with globalQueue := rest } q.id with ⟨st1, ex⟩
            have := (execute_task_queues { st with globalQueue := rest } q.id).2
            rw [hex] at this
            simpa using this
          · have hnr : QueuedTask.ready_to_execute st.states q = false :=
              Bool.not_eq_true _ ▸ eq_false_of_ne_true hr
            rw [drainGlobal_not_ready_rot fuel st q rest hq hnr]
            exact ih _

lemma drainLocal_some_ready (fuel : Nat) :
    ∀ (st st' : WorkerState) (id : Nat) (b : Bool),
    drainLocal fuel st = (st', some (id, b)) →
    ∃ q, q ∈ st.localQueue ∧ q.id = id
      ∧ QueuedTask.ready_to_execute st.states q = true := by
  induction fuel with
  | zero =>
      intro st st' id b h
      simp [drainLocal] at h
  | succ fuel ih =>
      intro st st' id b h
      cases hq : st.localQueue with
      | nil =>
          rw [drainLocal, hq] at h
          simp at h
      | cons q rest =>
          by_cases hr : QueuedTask.ready_to_execute st.states q = true
          · rw [drainLocal, hq] at h
            simp only [hr, if_true] at h
            rcases hex : execute_local_task { st with localQueue := rest } q.id with ⟨st1, ex⟩
            rw [hex] at h
            simp only [Prod.mk.injEq, Option.some.injEq] at h
            exact ⟨q, by simp [hq], h.2.1, hr⟩
          · have hnr : QueuedTask.ready_to_execute st.states q = false :=
              Bool.not_eq_true _ ▸ eq_false_of_ne_true hr
            rw [drainLocal_not_ready_rot fuel st q rest hq hnr] at h
            obtain ⟨q', hmem, hid, hready⟩ := ih _ _ _ _ h
            refine ⟨q', ?_, hid, hready⟩
            rcases List.mem_append.mp hmem with hm | hm
            · exact List.mem_cons_of_mem _ hm
            · simp only [List.mem_singleton] at hm
              subst hm
              exact List.mem_cons_self _ _

lemma drainGlobal_some_ready (fuel : Nat) :
    ∀ (st st' : WorkerState) (id : Nat) (b : Bool),
    drainGlobal fuel st = (st', some (id, b)) →
    ∃ q, q ∈ st.globalQueue ∧ q.id = id
      ∧ QueuedTask.ready_to_execute st.states q = true := by
  induction fuel with
  | zero =>
      intro st st' id b h
      simp [drainGlobal] at h
  | succ fuel ih =>
      intro st st' id b h
      cases hq : st.globalQueue with
      | nil =>
          rw [drainGlobal, hq] at h
          simp at h
      | cons q rest =>
          by_cases hr : QueuedTask.ready_to_execute st.states q = true
          · rw [drainGlobal, hq] at h
            simp only [hr, if_true] at h
            rcases hex : execute_task { st with globalQueue := rest } q.id with ⟨st1, ex⟩
            rw [hex] at h
            simp only [Prod.mk.injEq, Option.some.injEq] at h
            exact ⟨q, by simp [hq], h.2.1, hr⟩
          · have hnr : QueuedTask.ready_to_execute st.states q = false :=
              Bool.not_eq_true _ ▸ eq_false_of_ne_true hr
            rw [drainGlobal_not_ready_rot fuel st q rest hq hnr] at h
            obtain ⟨q', hmem, hid, hready⟩ := ih _ _ _ _ h
            refine ⟨q', ?_, hid, hready⟩
            rcases List.mem_append.mp hmem with hm | hm
            · exact List.mem_cons_of_mem _ hm
            · simp only [List.mem_singleton] at hm
              subst hm
              exact List.mem_cons_self _ _

/-- C1: the readiness predicate is the logical AND of `completed()` over the
dependency list (and the empty list is immediately ready); both worker scans
pass a record to execution only when that predicate returned true on the
record at the moment of the check (the scans do not modify any completion
state before that check, so the predicate is evaluated against the states as
popped); and `submit_after`/`submit_to_after` push exactly the record
carrying the given dependency states, so a task submitted with dependencies
is executed only after every one of its dependency completion flags has been
observed true.  (Once true, a completion flag is never cleared, so the
observation is stable under the other workers.) -/
theorem dependency_gated_execution :
    (∀ (states : List TaskState) (q : QueuedTask),
        QueuedTask.ready_to_execute states q = true ↔
          ∀ r ∈ q.dependencies, (getState states r).completed = true)
    ∧ (∀ (states : List TaskState) (i : Nat),
        QueuedTask.ready_to_execute states { id := i, dependencies := [] } = true)
    ∧ (∀ fuel st st' id b, drainLocal fuel st = (st', some (id, b)) →
        ∃ q, q ∈ st.localQueue ∧ q.id = id
          ∧ QueuedTask.ready_to_execute st.states q = true)
    ∧ (∀ fuel st st' id b, drainGlobal fuel st = (st', some (id, b)) →
        ∃ q, q ∈ st.globalQueue ∧ q.id = id
          ∧ QueuedTask.ready_to_execute st.states q = true)
    ∧ (∀ out deps w, ∃ w2, TaskExecutor.submit_after out deps w
          = SubmitOutcome.ok { id := w.counter % 2 ^ 64, ref := w.states.length } w2
        ∧ w2.exec.global_queue = w.exec.global_queue ++
            [{ id := w.counter % 2 ^ 64, dependencies := deps }])
    ∧ (∀ name out deps w ls, assocContains w.exec.thread_registry name = true →
        assocLookup w.exec.thread_local_states name = some ls →
        ∃ w2 ls', TaskExecutor.submit_to_after name out deps w
            = SubmitOutcome.ok { id := w.counter % 2 ^ 64, ref := w.states.length } w2
          ∧ assocLookup w2.exec.thread_local_states name = some ls'
          ∧ ls'.local_queue = ls.local_queue ++
              [{ id := w.counter % 2 ^ 64, dependencies := deps }]) := by
  refine ⟨?_, ?_, drainLocal_some_ready, drainGlobal_some_ready, ?_, ?_⟩
  · intro states q
    simp [QueuedTask.ready_to_execute, List.all_eq_true]
  · intro states i
    simp [QueuedTask.ready_to_execute]
  · intro out deps w
    exact ⟨_, rfl, rfl⟩
  · intro name out deps w ls hreg hls
    have hupd1 : assocLookup
        (assocUpdate w.exec.thread_local_states name
          { ls with
            task_storage :=
              assocInsert ls.task_storage (w.counter % 2 ^ 64)
                { id := w.counter % 2 ^ 64, output := out }
            task_complete_handles :=
              assocInsert ls.task_complete_handles (w.counter % 2 ^ 64)
                w.states.length }) name
        = some
          { ls with
            task_storage :=
              assocInsert ls.task_storage (w.counter % 2 ^ 64)
                { id := w.counter % 2 ^ 64, output := out }
            task_complete_handles :=
              assocInsert ls.task_complete_handles (w.counter % 2 ^ 64)
                w.states.length } :=
      assocLookup_update_self _ hls
    have hstep : TaskExecutor.submit_to_after name out deps w =
        SubmitOutcome.ok { id := w.counter % 2 ^ 64, ref := w.states.length }
          { counter := w.counter + 1
            states := w.states ++ [TaskState.new]
            exec :=
              { w.exec with
                thread_local_states :=
                  assocUpdate
                    (assocUpdate w.exec.thread_local_states name
                      { ls with
                        task_storage :=
                          assocInsert ls.task_storage (w.counter % 2 ^ 64)
                            { id := w.counter % 2 ^ 64, output := out }
                        task_complete_handles :=
                          assocInsert ls.task_complete_handles (w.counter % 2 ^ 64)
                            w.states.length })
                    name
                    { ls with
                      local_queue := ls.local_queue ++
                        [{ id := w.counter % 2 ^ 64, dependencies := deps }]
                      task_storage :=
                        assocInsert ls.task_storage (w.counter % 2 ^ 64)
                          { id := w.counter % 2 ^ 64, output := out }
                      task_complete_handles :=
                        assocInsert ls.task_complete_handles (w.counter % 2 ^ 64)
                          w.states.length } } } := by
      simp only [TaskExecutor.submit_to_after, hreg, BoxedTask.new, register_task,
        hls, hupd1]
      simp
    exact ⟨_, _, hstep, assocLookup_update_self _ hupd1, rfl⟩

/-- A concrete worker state: the head of the local queue (task 0) depends on
the incomplete state 0; behind it sits the independent task 1, held in the
local storage with its completion callback targeting state 1. -/
def exStC2 : WorkerState :=
  { states := [{ result := none, completed := false },
               { result := none, completed := false }]
    localQueue := [{ id := 0, dependencies := [0] }, { id := 1, dependencies := [] }]
    localStorage := [(1, { id := 1, output := { tag := 0, val := 42 } })]
    localHandles := [(1, 1)]
    globalQueue := []
    globalStorage := []
    globalHandles := []
    woken := [] }

/-- A concrete worker state whose local queue holds exactly one record, and
that record is not ready. -/
def exStSpin : WorkerState :=
  { states := [{ result := none, completed := false }]
    localQueue := [{ id := 0, dependencies := [0] }]
    localStorage := []
    localHandles := []
    globalQueue := []
    globalStorage := []
    globalHandles := []
    woken := [] }

/-- C1 witness: the empty dependency list is immediately ready; on the
concrete state the local scan reports an executed record and that record was
ready when checked; and a concrete `submit_to_after` pushes the record with
its dependency onto the local queue of `main`. -/
theorem dependency_gated_execution_witness :
    QueuedTask.ready_to_execute [] { id := 7, dependencies := [] } = true
    ∧ (∃ q, q ∈ exStC2.localQueue ∧ q.id = 1
        ∧ QueuedTask.ready_to_execute exStC2.states q = true)
    ∧ (∃ w2 ls', TaskExecutor.submit_to_after "main" { tag := 0, val := 1 } [0] exWorldC3
        = SubmitOutcome.ok { id := 0, ref := 0 } w2
      ∧ assocLookup w2.exec.thread_local_states "main" = some ls'
      ∧ ls'.local_queue = [{ id := 0, dependencies := [0] }]) := by
  have h := dependency_gated_execution
  refine ⟨h.2.1 [] 7, ?_, ?_⟩
  · have hrun : drainLocal 3 exStC2 = ((drainLocal 3 exStC2).1, some (1, true)) := by
      have h2 : (drainLocal 3 exStC2).2 = some (1, true) := by decide
      rw [← h2]
    exact h.2.2.1 3 exStC2 _ 1 true hrun
  · have h6 := h.2.2.2.2.2 "main" { tag := 0, val := 1 } [0] exWorldC3
      ThreadLocalState.empty (by decide) (by decide)
    simpa using h6

/-- C2 counterexample: on `exStC2` the head record is not ready, yet the
local scan does not stop after pushing it back - in the very same loop
iteration it pops again and executes the next record (task 1), whereas the
specified behaviour (`drainLocalSpec`, "push back and stop draining local
for this iteration") executes nothing.  So a worker does pop the local queue
again after a push-back, within one iteration. -/
theorem worker_drains_past_not_ready_counterexample :
    QueuedTask.ready_to_execute exStC2.states { id := 0, dependencies := [0] } = false
    ∧ exStC2.localQueue
        = [{ id := 0, dependencies := [0] }, { id := 1, dependencies := [] }]
    ∧ (drainLocalSpec exStC2).2 = none
    ∧ (drainLocal 3 exStC2).2 = some (1, true) := by
  decide

/-- C2 (amended): when a record popped from the local queue is not ready,
the worker pushes it back onto the tail of the local queue and *continues*
the `while let` scan with the next pop; consequently, when the local queue
holds exactly one record and it is not ready, the scan pops, pushes back and
re-pops that same record indefinitely - an unbounded spin within the single
iteration (here: for every amount of fuel, the scan is still spinning with
the state unchanged), rather than stopping the local drain. -/
theorem worker_local_scan_continues_after_pushback :
    (∀ fuel st (q : QueuedTask) rest, st.localQueue = q :: rest →
        QueuedTask.ready_to_execute st.states q = false →
        drainLocal (fuel + 1) st = drainLocal fuel { st with localQueue := rest ++ [q] })
    ∧ (∀ fuel st (q : QueuedTask), st.localQueue = [q] →
        QueuedTask.ready_to_execute st.states q = false →
        drainLocal fuel st = (st, none)) :=
  ⟨drainLocal_not_ready_rot, drainLocal_spin⟩

/-- C2 amended witness: the single-record spin on the concrete state. -/
theorem worker_local_scan_witness :
    drainLocal 5 exStSpin = (exStSpin, none) :=
  worker_local_scan_continues_after_pushback.2 5 exStSpin
    { id := 0, dependencies := [0] } rfl (by decide)

/-- C8: a record popped and found not ready is pushed back onto the *same*
queue it was popped from: the local scan pushes it back onto the tail of the
local queue and never touches the global queue (its result state carries the
global queue unchanged), and the global scan pushes it back onto the tail of
the global queue and leaves the local queue unchanged. -/
theorem not_ready_record_requeued_same_queue :
    (∀ fuel st (q : QueuedTask) rest, st.localQueue = q :: rest →
        QueuedTask.ready_to_execute st.states q = false →
        drainLocal (fuel + 1) st = drainLocal fuel { st with localQueue := rest ++ [q] })
    ∧ (∀ fuel st, ((drainLocal fuel st).1).globalQueue = st.globalQueue)
    ∧ (∀ fuel st (q : QueuedTask) rest, st.globalQueue = q :: rest →
        QueuedTask.ready_to_execute st.states q = false →
        drainGlobal (fuel + 1) st = drainGlobal fuel { st with globalQueue := rest ++ [q] })
    ∧ (∀ fuel st, ((drainGlobal fuel st).1).localQueue = st.localQueue) :=
  ⟨drainLocal_not_ready_rot, drainLocal_globalQueue,
   drainGlobal_not_ready_rot, drainGlobal_localQueue⟩

/-- C8 witness: on the concrete state, the not-ready head is pushed back
onto the local tail and the global queue is untouched. -/
theorem not_ready_requeue_witness :
    drainLocal 3 exStC2 = drainLocal 2
      { exStC2 with localQueue :=
          [{ id := 1, dependencies := [] }, { id := 0, dependencies := [0] }] }
    ∧ ((drainLocal 3 exStC2).1).globalQueue = exStC2.globalQueue := by
  refine ⟨?_, not_ready_record_requeued_same_queue.2.1 3 exStC2⟩
  exact not_ready_record_requeued_same_queue.1 2 exStC2 _ _ rfl (by decide)

/-!
### Invariants of the completion protocol (for C5)
-/

lemma getState_append_lt :
    ∀ (l : List TaskState) (x : TaskState) (r : Nat), r < l.length →
      getState (l ++ [x]) r = getState l r := by
  intro l
  induction l with
  | nil =>
      intro x r hr
      simp at hr
  | cons a l ih =>
      intro x r hr
      cases r with
      | zero => rfl
      | succ r => exact ih x r (by simpa using hr)

lemma getState_append_len (l : List TaskState) (x : TaskState) :
    getState (l ++ [x]) l.length = x := by
  induction l with
  | nil => rfl
  | cons a l ih => simpa using ih

lemma getState_of_ge :
    ∀ (l : List TaskState) (r : Nat), l.length ≤ r →
      getState l r = { result := none, completed := false } := by
  intro l
  induction l with
  | nil =>
      intro r _
      cases r <;> rfl
  | cons a l ih =>
      intro r hr
      cases r with
      | zero => simp at hr
      | succ r => exact ih r (by simpa using hr)

lemma getState_set_self (l : List TaskState) (r : Nat) (v : TaskState)
    (h : r < l.length) : getState (l.set r v) r = v := by
  induction l generalizing r with
  | nil => simp at h
  | cons a l ih =>
      cases r with
      | zero => rfl
      | succ r => exact ih r (by simpa using h)

lemma getState_set_ne (l : List TaskState) (i r : Nat) (v : TaskState)
    (h : i ≠ r) : getState (l.set i v) r = getState l r := by
  induction l generalizing i r with
  | nil => simp [List.set]
  | cons a l ih =>
      cases i with
      | zero =>
          cases r with
          | zero => exact absurd rfl h
          | succ r => rfl
      | succ i =>
          cases r with
          | zero => rfl
          | succ r => exact ih i r (fun e => h (by rw [e]))

lemma assocLookup_eq_none_of_keys_ne {K V : Type} [DecidableEq K]
    {l : List (K × V)} {k : K} (h : ∀ p ∈ l, p.1 ≠ k) : assocLookup l k = none := by
  induction l with
  | nil => rfl
  | cons p l ih =>
      obtain ⟨a, b⟩ := p
      have ha : a ≠ k := h (a, b) (List.mem_cons_self _ _)
      simp only [assocLookup, ha, if_false]
      exact ih (fun q hq => h q (List.mem_cons_of_mem _ hq))

/-- The inductive invariant of the completion protocol: all heap indices in
play are in range and all callback-map ids are below the id counter; every
heap cell holds at most one token across the four phases
(callback map, pending store, pending flag, flagged); every recorded write
is matched by a pending-flag token or a flag event (so the flag of a cell is
set only after its write); the completion flag of a cell is set exactly when
its flag event happened; and a written cell still holds a result unless a
take event removed it. -/
def CInv (s : CompletionSys) : Prop :=
  (∀ p ∈ s.handles, p.2 < s.states.length ∧ p.1 < s.nextId)
  ∧ (∀ p ∈ s.pendingStore, p.1 < s.states.length)
  ∧ (∀ r ∈ s.pendingFlag, r < s.states.length)
  ∧ (∀ r ∈ s.flagLog, r < s.states.length)
  ∧ (∀ r ∈ s.writeLog, r < s.states.length)
  ∧ (∀ r, phaseCount s r ≤ 1)
  ∧ (∀ r, s.writeLog.count r = s.pendingFlag.count r + s.flagLog.count r)
  ∧ (∀ r, (getState s.states r).completed = true ↔ r ∈ s.flagLog)
  ∧ (∀ r, r ∈ s.writeLog → (getState s.states r).result ≠ none ∨ r ∈ s.takeLog)

lemma CInv_init : CInv CompletionSys.init := by
  refine ⟨?_, ?_, ?_, ?_, ?_, ?_, ?_, ?_, ?_⟩ <;>
    simp [CompletionSys.init, phaseCount, getState]

lemma CInv_step {s s' : CompletionSys} (hinv : CInv s) (hstep : CStep s s') :
    CInv s' := by
  obtain ⟨hb1, hb2, hb3, hb4, hb5, hph, hwr, hcf, hres⟩ := hinv
  cases hstep with
  | register =>
      have hins : assocInsert s.handles s.nextId s.states.length
          = s.handles ++ [(s.nextId, s.states.length)] := by
        rw [assocInsert, assocErase_of_lookup_none
          (assocLookup_eq_none_of_keys_ne (fun p hp => Nat.ne_of_lt (hb1 p hp).2))]
      refine ⟨?_, ?_, ?_, ?_, ?_, ?_, ?_, ?_, ?_⟩
      · intro p hp
        simp only [hins, List.mem_append, List.mem_singleton] at hp
        simp only [List.length_append, List.length_singleton]
        rcases hp with hp | hp
        · have := hb1 p hp
          omega
        · subst hp
          simp
      · intro p hp
        have := hb2 p hp
        simp only [List.length_append, List.length_singleton]
        omega
      · intro r hr
        have := hb3 r hr
        simp only [List.length_append, List.length_singleton]
        omega
      · intro r hr
        have := hb4 r hr
        simp only [List.length_append, List.length_singleton]
        omega
      · intro r hr
        have := hb5 r hr
        simp only [List.length_append, List.length_singleton]
        omega
      · intro r
        have hold := hph r
        simp only [phaseCount, hins, List.map_append, List.map_cons, List.map_nil,
          List.count_append] at hold ⊢
        by_cases hr : s.states.length = r
        · subst hr
          have c1 : (s.handles.map Prod.snd).count s.states.length = 0 := by
            rw [List.count_eq_zero]
            intro hmem
            obtain ⟨p, hp, hpe⟩ := List.mem_map.mp hmem
            exact absurd hpe (Nat.ne_of_lt (hb1 p hp).1)
          have c2 : (s.pendingStore.map Prod.fst).count s.states.length = 0 := by
            rw [List.count_eq_zero]
            intro hmem
            obtain ⟨p, hp, hpe⟩ := List.mem_map.mp hmem
            exact absurd hpe (Nat.ne_of_lt (hb2 p hp))
          have c3 : s.pendingFlag.count s.states.length = 0 := by
            rw [List.count_eq_zero]
            intro hmem
            exact absurd rfl (Nat.ne_of_lt (hb3 _ hmem))
          have c4 : s.flagLog.count s.states.length = 0 := by
            rw [List.count_eq_zero]
            intro hmem
            exact absurd rfl (Nat.ne_of_lt (hb4 _ hmem))
          simp [c1, c2, c3, c4]
        · have : ([s.states.length].count r) = 0 := by
            simp [List.count_cons, hr]
          omega
      · intro r
        exact hwr r
      · intro r
        rcases Nat.lt_trichotomy r s.states.length with hlt | heq | hgt
        · rw [getState_append_lt _ _ _ hlt]
          exact hcf r
        · subst heq
          rw [getState_append_len]
          simp only [TaskState.new, Bool.false_eq_true, false_iff]
          intro hmem
          exact absurd (hb4 _ hmem) (Nat.lt_irrefl _)
        · rw [getState_of_ge _ _ (by simp; omega)]
          simp only [Bool.false_eq_true, false_iff]
          intro hmem
          have := hb4 _ hmem
          omega
      · intro r hrw
        have hrlt := hb5 r hrw
        rw [getState_append_lt _ _ _ hrlt]
        exact hres r hrw
  | remove_handle id r v hlook =>
      obtain ⟨h1, h2, heq, her⟩ := assocErase_split hlook
      have hmem_r : (id, r) ∈ s.handles := by
        rw [heq]
        simp
      have hrlen : r < s.states.length := (hb1 _ hmem_r).1
      refine ⟨?_, ?_, hb3, hb4, hb5, ?_, hwr, hcf, hres⟩
      · intro p hp
        exact hb1 p (mem_assocErase hp)
      · intro p hp
        simp only [List.mem_append, List.mem_singleton] at hp
        rcases hp with hp | hp
        · exact hb2 p hp
        · subst hp
          exact hrlen
      · intro x
        have hold := hph x
        simp only [phaseCount] at hold ⊢
        rw [her]
        rw [heq] at hold
        simp only [List.map_append, List.map_cons, List.count_append, List.count_cons,
          List.map_nil, List.count_nil, beq_iff_eq] at hold ⊢
        by_cases hrx : r = x
        · simp only [hrx, if_true] at hold ⊢
          omega
        · simp only [hrx, if_false] at hold ⊢
          omega
  | store_result p1 p2 r v hsplit =>
      have hmem : (r, v) ∈ s.pendingStore := by
        rw [hsplit]
        simp
      have hrlen : r < s.states.length := hb2 _ hmem
      refine ⟨?_, ?_, ?_, ?_, ?_, ?_, ?_, ?_, ?_⟩
      · intro p hp
        have := hb1 p hp
        simpa [List.length_set] using this
      · intro p hp
        simp only [List.mem_append] at hp
        have : p ∈ s.pendingStore := by
          rw [hsplit]
          rcases hp with hp | hp
          · exact List.mem_append_left _ hp
          · exact List.mem_append_right _ (List.mem_cons_of_mem _ hp)
        simpa [List.length_set] using hb2 p this
      · intro x hx
        simp only [List.mem_append, List.mem_singleton] at hx
        rcases hx with hx | hx
        · simpa [List.length_set] using hb3 x hx
        · subst hx
          simpa [List.length_set] using hrlen
      · intro x hx
        simpa [List.length_set] using hb4 x hx
      · intro x hx
        simp only [List.mem_append, List.mem_singleton] at hx
        rcases hx with hx | hx
        · simpa [List.length_set] using hb5 x hx
        · subst hx
          simpa [List.length_set] using hrlen
      · intro x
        have hold := hph x
        simp only [phaseCount, hsplit, List.map_append, List.map_cons,
          List.count_append, List.count_cons, List.map_nil, List.count_nil,
          beq_iff_eq] at hold ⊢
        by_cases hrx : r = x
        · simp only [hrx, if_true] at hold ⊢
          omega
        · simp only [hrx, if_false] at hold ⊢
          omega
      · intro x
        have hold := hwr x
        simp only [List.count_append, List.count_cons, List.count_nil, beq_iff_eq]
        by_cases hrx : r = x
        · simp only [hrx, if_true]
          omega
        · simp only [hrx, if_false]
          omega
      · intro x
        by_cases hx : r = x
        · subst hx
          rw [getState_set_self _ _ _ hrlen]
          exact hcf r
        · rw [getState_set_ne _ _ _ _ hx]
          exact hcf x
      · intro x hx
        simp only [List.mem_append, List.mem_singleton] at hx
        by_cases hxr : x = r
        · subst hxr
          rw [getState_set_self _ _ _ hrlen]
          simp
        · rcases hx with hx | hx
          · rw [getState_set_ne _ _ _ _ (fun e => hxr e.symm)]
            exact hres x hx
          · exact absurd hx hxr
  | set_completed q1 q2 r hsplit =>
      have hmem : r ∈ s.pendingFlag := by
        rw [hsplit]
        simp
      have hrlen : r < s.states.length := hb3 _ hmem
      refine ⟨?_, ?_, ?_, ?_, ?_, ?_, ?_, ?_, ?_⟩
      · intro p hp
        simpa [List.length_set] using hb1 p hp
      · intro p hp
        simpa [List.length_set] using hb2 p hp
      · intro x hx
        simp only [List.mem_append] at hx
        have : x ∈ s.pendingFlag := by
          rw [hsplit]
          rcases hx with hx | hx
          · exact List.mem_append_left _ hx
          · exact List.mem_append_right _ (List.mem_cons_of_mem _ hx)
        simpa [List.length_set] using hb3 x this
      · intro x hx
        simp only [List.mem_append, List.mem_singleton] at hx
        rcases hx with hx | hx
        · simpa [List.length_set] using hb4 x hx
        · subst hx
          simpa [List.length_set] using hrlen
      · intro x hx
        simpa [List.length_set] using hb5 x hx
      · intro x
        have hold := hph x
        simp only [phaseCount, hsplit, List.count_append, List.count_cons,
          List.count_nil, beq_iff_eq] at hold ⊢
        by_cases hrx : r = x
        · simp only [hrx, if_true] at hold ⊢
          omega
        · simp only [hrx, if_false] at hold ⊢
          omega
      · intro x
        have hold := hwr x
        simp only [hsplit, List.count_append, List.count_cons, List.count_nil,
          beq_iff_eq] at hold ⊢
        by_cases hrx : r = x
        · simp only [hrx, if_true] at hold ⊢
          omega
        · simp only [hrx, if_false] at hold ⊢
          omega
      · intro x
        by_cases hx : x = r
        · subst hx
          rw [getState_set_self _ _ _ hrlen]
          simp
        · rw [getState_set_ne _ _ _ _ (fun e => hx e.symm)]
          rw [hcf x]
          simp [List.mem_append, hx]
      · intro x hx
        by_cases hxr : x = r
        · rw [hxr, getState_set_self _ _ _ hrlen]
          rcases hres r (hxr ▸ hx) with hr1 | hr1
          · left
            simpa using hr1
          · right
            exact hr1
        · rw [getState_set_ne _ _ _ _ (fun e => hxr e.symm)]
          exact hres x hx
  | take_result r v hcomp hres0 =>
      have hrlen : r < s.states.length := by
        by_contra hge
        rw [getState_of_ge _ _ (Nat.le_of_not_lt hge)] at hcomp
        simp at hcomp
      refine ⟨?_, ?_, ?_, ?_, ?_, ?_, hwr, ?_, ?_⟩
      · intro p hp
        simpa [List.length_set] using hb1 p hp
      · intro p hp
        simpa [List.length_set] using hb2 p hp
      · intro x hx
        simpa [List.length_set] using hb3 x hx
      · intro x hx
        simpa [List.length_set] using hb4 x hx
      · intro x hx
        simpa [List.length_set] using hb5 x hx
      · intro x
        exact hph x
      · intro x
        by_cases hx : x = r
        · subst hx
          rw [getState_set_self _ _ _ hrlen]
          exact hcf x
        · rw [getState_set_ne _ _ _ _ (fun e => hx e.symm)]
          exact hcf x
      · intro x hx
        by_cases hxr : x = r
        · subst hxr
          right
          simp
        · rw [getState_set_ne _ _ _ _ (fun e => hxr e.symm)]
          rcases hres x hx with hr1 | hr1
          · left
            exact hr1
          · right
            simp [hr1]

lemma CInv_reachable {s : CompletionSys} (h : CReachable s) : CInv s := by
  induction h with
  | init => exact CInv_init
  | step _ hstep ih => exact CInv_step ih hstep

/-- C5: in every state of the completion protocol reachable under any
interleaving of workers and observers, each result slot has been written at
most once (the write is performed by the one worker that removed the
completion callback for that task - once a cell is written, no callback for
it remains in any map); the completion flag of a cell is set only after its
result was stored (`set_result` stores under the lock first, then raises the
flag); and any observer that sees `completed() == true` on a cell finds the
result already written and still present, unless a `take` (by `get` or
`try_get`) has removed it. -/
theorem result_written_once_before_flag (s : CompletionSys) (hs : CReachable s)
    (r : Nat) :
    s.writeLog.count r ≤ 1
    ∧ (r ∈ s.flagLog → r ∈ s.writeLog)
    ∧ (r ∈ s.writeLog → (s.handles.map Prod.snd).count r = 0)
    ∧ ((getState s.states r).completed = true →
        r ∈ s.writeLog ∧ ((getState s.states r).result ≠ none ∨ r ∈ s.takeLog)) := by
  obtain ⟨hb1, hb2, hb3, hb4, hb5, hph, hwr, hcf, hres⟩ := CInv_reachable hs
  have hph' := hph r
  have hwr' := hwr r
  simp only [phaseCount] at hph'
  have hflag_sub : r ∈ s.flagLog → r ∈ s.writeLog := by
    intro hmem
    have h1 : 0 < s.flagLog.count r := List.count_pos_iff.mpr hmem
    have : 0 < s.writeLog.count r := by omega
    exact List.count_pos_iff.mp this
  refine ⟨by omega, hflag_sub, ?_, ?_⟩
  · intro hmem
    have h1 : 0 < s.writeLog.count r := List.count_pos_iff.mpr hmem
    omega
  · intro hcomp
    have hfl : r ∈ s.flagLog := (hcf r).mp hcomp
    exact ⟨hflag_sub hfl, hres r (hflag_sub hfl)⟩

/-- A concrete reachable completion-protocol state: one task registered,
its callback removed by a worker, the result stored, the flag set. -/
def exSysC5 : CompletionSys :=
  { nextId := 1
    states := [{ result := some { tag := 0, val := 9 }, completed := true }]
    handles := []
    pendingStore := []
    pendingFlag := []
    writeLog := [0]
    flagLog := [0]
    takeLog := [] }

lemma exSysC5_reachable : CReachable exSysC5 := by
  have h0 : CReachable CompletionSys.init := CReachable.init
  have h1 := CReachable.step h0 (CStep.register CompletionSys.init)
  have h2 := CReachable.step h1
    (CStep.remove_handle _ 0 0 { tag := 0, val := 9 } (by decide))
  have h3 := CReachable.step h2
    (CStep.store_result _ [] [] 0 { tag := 0, val := 9 } rfl)
  have h4 := CReachable.step h3 (CStep.set_completed _ [] [] 0 rfl)
  exact h4

/-- C5 witness: on the concrete reachable state, cell 0 was written at most
once, its flag implies its write, and seeing the flag finds the result still
stored. -/
theorem result_written_once_witness :
    exSysC5.writeLog.count 0 ≤ 1
    ∧ (0 ∈ exSysC5.flagLog → 0 ∈ exSysC5.writeLog)
    ∧ ((getState exSysC5.states 0).completed = true →
        0 ∈ exSysC5.writeLog
        ∧ ((getState exSysC5.states 0).result ≠ none ∨ 0 ∈ exSysC5.takeLog)) := by
  have h := result_written_once_before_flag exSysC5 exSysC5_reachable 0
  exact ⟨h.1, h.2.1, h.2.2.2⟩
